import Mathlib

/-!
Verification development for the `eigen-softposit` benchmark harness
(`src/main.cpp`).

The program is a single translation unit: a `benchmark` template function
that fills constant matrices in three scalar precisions (posit32, float,
double), times repeated products, computes mean absolute errors of the
posit and float products against the double reference, and a `main` driver
that sweeps square sizes 10..50.

Shallow embedding conventions:
* A matrix (`Eigen::Matrix<T, Dynamic, Dynamic>`) is a `Mat` record: row
  and column counts plus a total entry function `Nat → Nat → α`.
* `double` values are modelled exactly as `ℚ` (the claims about the double
  computations are stated in exact arithmetic).
* The external posit and float scalar types are opaque to this program, so
  they are abstracted as an `Arith` context: carrier types with the
  operations the source uses (construction from a double value, `+`, `*`,
  conversion to double, finiteness test).
* Wall-clock durations measured by `high_resolution_clock` are inputs from
  the environment, modelled as per-trial duration functions `Nat → ℚ`.
* The timing accumulators `duration<double, std::micro> pelapsed;` and
  `felapsed` are default-constructed in the source, which for an arithmetic
  representation leaves the value indeterminate (uninitialized); their
  initial values are therefore explicit parameters `pInit`, `fInit` of the
  embedded `benchmark`.  The error accumulators `double posit_mean_error{};`
  are value-initialized to zero and are embedded as the literal `0`.
* Output is modelled by the `BenchOutcome` type: `assertFail` for the
  `assert(repetitions > 0)` abort, `diagnostic kind r c` for the one-line
  standard-error message naming the dimensions followed by the early
  `return`, and `results r c pt ft pme fme` for the printed results block.
-/

/-- A dense dynamic matrix: dimensions fixed at construction, entries given
by a total function (reads within `rows × cols` are the ones the program
performs). -/
structure Mat (α : Type) where
  rows : Nat
  cols : Nat
  entry : Nat → Nat → α

/-- Eigen `fill` of a freshly allocated `r × c` matrix with a constant:
every coefficient is set to `v`. -/
def Mat.const (r c : Nat) (v : α) : Mat α :=
  ⟨r, c, fun _ _ => v⟩

/-- Dot product of length `n`, folding `acc + f k * g k` left to right from
`zero`, with the scalar operations passed explicitly (the posit type has
its own `+`/`*`). -/
def dotProd (add mul : α → α → α) (zero : α) (n : Nat) (f g : Nat → α) : α :=
  (List.range n).foldl (fun acc k => add acc (mul (f k) (g k))) zero

/-- Matrix product `A * B`: entry `(i, j)` is the dot product of row `i` of
`A` with column `j` of `B`, over `A.cols` terms. -/
def matMul (add mul : α → α → α) (zero : α) (A B : Mat α) : Mat α :=
  ⟨A.rows, B.cols, fun i j => dotProd add mul zero A.cols (fun k => A.entry i k) (fun k => B.entry k j)⟩

/-- Entrywise sum `A + B` (computed in the timed section, result unused). -/
def matAdd (add : α → α → α) (A B : Mat α) : Mat α :=
  ⟨A.rows, A.cols, fun i j => add (A.entry i j) (B.entry i j)⟩

/-- Entrywise difference `A - B`. -/
def matSub (sub : α → α → α) (A B : Mat α) : Mat α :=
  ⟨A.rows, A.cols, fun i j => sub (A.entry i j) (B.entry i j)⟩

/-- Entrywise map, used for `cwiseAbs`, `cast<double>()` and the posit
`toDouble` conversion. -/
def matMap (f : α → β) (A : Mat α) : Mat β :=
  ⟨A.rows, A.cols, fun i j => f (A.entry i j)⟩

/-- Sum of all in-range entries of a rational matrix. -/
def Mat.sumEntries (M : Mat ℚ) : ℚ :=
  ((List.range M.rows).map (fun i => ((List.range M.cols).map (fun j => M.entry i j)).sum)).sum

/-- Eigen `mean()`: the sum of the coefficients divided by the number of
coefficients. -/
def Mat.mean (M : Mat ℚ) : ℚ :=
  M.sumEntries / ((M.rows : ℚ) * (M.cols : ℚ))

/-- Eigen `allFinite()`: every in-range coefficient satisfies the scalar
finiteness test. -/
def Mat.allFinite (fin : α → Bool) (M : Mat α) : Bool :=
  (List.range M.rows).all (fun i => (List.range M.cols).all (fun j => fin (M.entry i j)))

/-- Abstraction of the two external scalar libraries the source calls:
`P` is `posit32` (softposit), `F` is `float`.  Doubles are `ℚ`. -/
structure Arith where
  P : Type
  F : Type
  pOfQ : ℚ → P
  pAddOp : P → P → P
  pSubOp : P → P → P
  pMulOp : P → P → P
  pZero : P
  pToQ : P → ℚ
  pFin : P → Bool
  fOfQ : ℚ → F
  fAddOp : F → F → F
  fSubOp : F → F → F
  fMulOp : F → F → F
  fZero : F
  fToQ : F → ℚ
  fFin : F → Bool

/-- The six operand matrices of one `benchmark` call, after allocation and
`fill` (`src/main.cpp` lines 62-76). -/
structure BenchSetup (ar : Arith) where
  pa : Mat ar.P
  pb : Mat ar.P
  fa : Mat ar.F
  fb : Mat ar.F
  da : Mat ℚ
  db : Mat ℚ

/-- Allocation and constant fill of the operands: `pa.fill(p32(numa))`,
`fa.fill(float(numa))`, `da.fill(numa)`, and likewise for the `b` side. -/
def benchSetup (ar : Arith) (r c : Nat) (numa numb : ℚ) : BenchSetup ar :=
  { pa := Mat.const r c (ar.pOfQ numa)
    pb := Mat.const r c (ar.pOfQ numb)
    fa := Mat.const r c (ar.fOfQ numa)
    fb := Mat.const r c (ar.fOfQ numb)
    da := Mat.const r c numa
    db := Mat.const r c numb }

/-- The posit product `pmul = pa * pb` of a trial. -/
def positProd (ar : Arith) (s : BenchSetup ar) : Mat ar.P :=
  matMul ar.pAddOp ar.pMulOp ar.pZero s.pa s.pb

/-- The float product `fmul = fa * fb` of a trial. -/
def floatProd (ar : Arith) (s : BenchSetup ar) : Mat ar.F :=
  matMul ar.fAddOp ar.fMulOp ar.fZero s.fa s.fb

/-- The double reference product `ref = da * db` of a trial. -/
def refProd (ar : Arith) (s : BenchSetup ar) : Mat ℚ :=
  matMul (· + ·) (· * ·) (0 : ℚ) s.da s.db

/-- The matrix `p_to_d`: the posit product converted entry by entry to
double (the values produced by the copy loop at lines 102-106). -/
def pToD (ar : Arith) (s : BenchSetup ar) : Mat ℚ :=
  matMap ar.pToQ (positProd ar s)

/-- Per-trial posit mean absolute error:
`(ref - p_to_d).cwiseAbs().mean()`. -/
def positTrialErr (ar : Arith) (s : BenchSetup ar) : ℚ :=
  (matMap abs (matSub (· - ·) (refProd ar s) (pToD ar s))).mean

/-- Per-trial float mean absolute error:
`(ref - fmul.cast<double>()).cwiseAbs().mean()`. -/
def floatTrialErr (ar : Arith) (s : BenchSetup ar) : ℚ :=
  (matMap abs (matSub (· - ·) (refProd ar s) (matMap ar.fToQ (floatProd ar s)))).mean

/-- Which of the two non-finite diagnostics was printed to standard error. -/
inductive DiagKind where
  | floatNonFinite : DiagKind
  | positInputInvalid : DiagKind
deriving DecidableEq, Repr

/-- The four accumulators of the repetition loop: `pelapsed`, `felapsed`,
`posit_mean_error`, `float_mean_error`. -/
structure Accum where
  pel : ℚ
  fel : ℚ
  pme : ℚ
  fme : ℚ
deriving DecidableEq, Repr

/-- One iteration of the repetition loop (trial index `i`): accumulate the
two measured durations, then the two finiteness checks in source order
(float product first, then the posit inputs), each returning early with a
diagnostic; on success accumulate the two per-trial errors. -/
def trialStep (okF okP : Bool) (ptime ftime dp df : ℚ) (acc : Accum) : Except DiagKind Accum :=
  let a1 : Accum := { acc with pel := acc.pel + ptime, fel := acc.fel + ftime }
  if !okF then Except.error DiagKind.floatNonFinite
  else if !okP then Except.error DiagKind.positInputInvalid
  else Except.ok { a1 with pme := a1.pme + dp, fme := a1.fme + df }

/-- The repetition loop: run `n` more trials starting at trial index `i`,
threading the accumulators, stopping at the first diagnostic. -/
def runTrials (okF okP : Bool) (pts fts : Nat → ℚ) (dp df : ℚ) :
    Nat → Nat → Accum → Except DiagKind Accum
  | _, 0, acc => Except.ok acc
  | i, n + 1, acc =>
    match trialStep okF okP (pts i) (fts i) dp df acc with
    | Except.error e => Except.error e
    | Except.ok a2 => runTrials okF okP pts fts dp df (i + 1) n a2

/-- Observable outcome of one `benchmark` call: the assertion abort, the
early return with a one-line standard-error diagnostic naming the
dimensions, or the printed results block (dimensions header, posit mean
time, float mean time, posit mean absolute error, float mean absolute
error). -/
inductive BenchOutcome where
  | assertFail : BenchOutcome
  | diagnostic : DiagKind → Nat → Nat → BenchOutcome
  | results : Nat → Nat → ℚ → ℚ → ℚ → ℚ → BenchOutcome
deriving DecidableEq, Repr

/-- End of a completed `benchmark` call: a diagnostic that was hit inside
the loop is printed to standard error (naming the dimensions) and the call
returns early; otherwise each accumulator is divided by the repetition
count and the results block is printed. -/
def finishOutcome (r c : Nat) (reps : Int) (res : Except DiagKind Accum) : BenchOutcome :=
  match res with
  | Except.error e => BenchOutcome.diagnostic e r c
  | Except.ok acc =>
    BenchOutcome.results r c (acc.pel / (reps : ℚ)) (acc.fel / (reps : ℚ))
      (acc.pme / (reps : ℚ)) (acc.fme / (reps : ℚ))

/-- Embedding of `benchmark(r, c, repetitions, numa, numb)`.

`pts i` and `fts i` are the wall-clock durations (in microseconds) measured
around the posit and float operation sequences of trial `i`; `pInit` and
`fInit` are the indeterminate initial values of the default-constructed
duration accumulators `pelapsed` and `felapsed`.  Because the operand
matrices are filled once and never modified, every trial computes the same
products, checks and per-trial errors; they are bound once here and the
loop reuses them, exactly as the per-iteration recomputation in the source
would. -/
def benchmark (ar : Arith) (r c : Nat) (repetitions : Int) (numa numb : ℚ)
    (pts fts : Nat → ℚ) (pInit fInit : ℚ) : BenchOutcome :=
  if repetitions ≤ 0 then BenchOutcome.assertFail
  else
    let s := benchSetup ar r c numa numb
    let _pmul := positProd ar s
    let _padd := matAdd ar.pAddOp s.pa s.pb
    let _pmin := matSub ar.pSubOp s.pa s.pb
    let fmul := floatProd ar s
    let _fadd := matAdd ar.fAddOp s.fa s.fb
    let _fmin := matSub ar.fSubOp s.fa s.fb
    let okF := fmul.allFinite ar.fFin
    let okP := s.pa.allFinite ar.pFin && s.pb.allFinite ar.pFin
    let dp := positTrialErr ar s
    let df := floatTrialErr ar s
    finishOutcome r c repetitions
      (runTrials okF okP pts fts dp df 0 repetitions.toNat ⟨pInit, fInit, 0, 0⟩)

/-- Write history of the `p_to_d` buffer: for each coordinate pair, the
list of values written there so far (the buffer is allocated without
initialization, so an empty history means an uninitialized cell). -/
def Store : Type := Nat → Nat → List ℚ

/-- The empty (freshly allocated, uninitialized) buffer. -/
def Store.empty : Store := fun _ _ => []

/-- Record one write of value `v` at coordinates `(row, col)`. -/
def Store.write (st : Store) (row col : Nat) (v : ℚ) : Store :=
  fun i j => if i = row ∧ j = col then st i j ++ [v] else st i j

/-- Inner loop of the conversion at lines 102-106: for `col` in
`0 .. cols-1`, write `f row col` at `(row, col)`. -/
def copyRow (f : Nat → Nat → ℚ) (row cols : Nat) (st : Store) : Store :=
  (List.range cols).foldl (fun s col => s.write row col (f row col)) st

/-- The full double loop over `pmul.rows()` × `pmul.cols()` writing
`pmul(row, col).toDouble()` into `p_to_d(row, col)`, starting from the
freshly allocated buffer. -/
def copyLoop (f : Nat → Nat → ℚ) (rows cols : Nat) : Store :=
  (List.range rows).foldl (fun s row => copyRow f row cols s) Store.empty

/-- One invocation of `benchmark` from `main`: dimensions, repetition
count, fill values. -/
structure BenchCall where
  r : Nat
  c : Nat
  reps : Int
  numa : ℚ
  numb : ℚ
deriving DecidableEq, Repr

/-- The driver loop counter: `for (int i {10}; i <= 50; i += 10)`. -/
def sweepSizesFrom (i : Nat) : List Nat :=
  if i ≤ 50 then i :: sweepSizesFrom (i + 10) else []
termination_by 51 - i
decreasing_by omega

/-- The four `benchmark` invocations of one driver iteration
(`src/main.cpp` lines 155-158), with the double literals written as the
exact rationals they denote in the source text. -/
def sweepBody (i : Nat) : List BenchCall :=
  [⟨i, i, 5, 1, 2⟩,
   ⟨i, i, 5, 100001 / 100000, 99999 / 100000⟩,
   ⟨i, i, 5, 1 / 100000, 2 / 100000⟩,
   ⟨i, i, 5, 10000, 10000⟩]

/-- All `benchmark` invocations `main` performs, in order. -/
def mainCalls : List BenchCall :=
  (sweepSizesFrom 10).flatMap sweepBody

/-- The sweep `main` runs: each call is executed independently and the
driver continues with the next invocation whatever the previous outcome
was. -/
def runSweep (ar : Arith) (pts fts : Nat → ℚ) (pInit fInit : ℚ) : List BenchOutcome :=
  mainCalls.map (fun cl => benchmark ar cl.r cl.c cl.reps cl.numa cl.numb pts fts pInit fInit)

/-- Concrete arithmetic context for evaluating the embedding: both scalar
libraries interpreted as exact rational arithmetic with every value
finite. -/
def arQ : Arith :=
  { P := ℚ, F := ℚ
    pOfQ := id, pAddOp := (· + ·), pSubOp := (· - ·), pMulOp := (· * ·)
    pZero := 0, pToQ := id, pFin := fun _ => true
    fOfQ := id, fAddOp := (· + ·), fSubOp := (· - ·), fMulOp := (· * ·)
    fZero := 0, fToQ := id, fFin := fun _ => true }

/-- Concrete context in which a float value of magnitude at least 100 is
non-finite (an overflow model), and every posit value is finite. -/
def arOverflowF : Arith :=
  { arQ with fFin := fun q : ℚ => decide (q < 100 ∧ (-100 : ℚ) < q) }

/-- Concrete context in which a posit value of magnitude at least 100 is
treated as invalid, and every float value is finite. -/
def arOverflowP : Arith :=
  { arQ with pFin := fun q : ℚ => decide (q < 100 ∧ (-100 : ℚ) < q) }

/-- A dot product of two constant vectors of length `n` over the rationals
is `n` copies of the product added to the start value. -/
theorem dotProd_const (a b z : ℚ) (n : Nat) :
    dotProd (· + ·) (· * ·) z n (fun _ => a) (fun _ => b) = z + (n : ℚ) * (a * b) := by
  induction n with
  | zero => simp [dotProd]
  | succ m ih =>
    unfold dotProd at ih ⊢
    rw [List.range_succ, List.foldl_append, ih]
    simp only [List.foldl_cons, List.foldl_nil]
    push_cast
    ring

/-- A completed call never yields the assertion-failure outcome. -/
theorem finishOutcome_ne_assertFail (r c : Nat) (reps : Int) (res : Except DiagKind Accum) :
    finishOutcome r c reps res ≠ BenchOutcome.assertFail := by
  cases res <;> simp [finishOutcome]

/-- Inversion for a printed results block: the loop completed without a
diagnostic and each printed value is the matching accumulator divided by
the repetition count. -/
theorem finishOutcome_results_inv (r c r2 c2 : Nat) (reps : Int)
    (res : Except DiagKind Accum) (pt ft pme fme : ℚ)
    (h : finishOutcome r c reps res = BenchOutcome.results r2 c2 pt ft pme fme) :
    r2 = r ∧ c2 = c ∧ ∃ acc, res = Except.ok acc ∧ pt = acc.pel / (reps : ℚ) ∧
      ft = acc.fel / (reps : ℚ) ∧ pme = acc.pme / (reps : ℚ) ∧ fme = acc.fme / (reps : ℚ) := by
  cases res with
  | error e => simp [finishOutcome] at h
  | ok acc =>
    simp only [finishOutcome, BenchOutcome.results.injEq] at h
    obtain ⟨h1, h2, h3, h4, h5, h6⟩ := h
    exact ⟨h1.symm, h2.symm, acc, rfl, h3.symm, h4.symm, h5.symm, h6.symm⟩

/-- If the repetition loop completes, the error accumulators have grown by
exactly one per-trial error per executed trial. -/
theorem runTrials_ok_inv (okF okP : Bool) (pts fts : Nat → ℚ) (dp df : ℚ) :
    ∀ (n i : Nat) (acc acc2 : Accum),
      runTrials okF okP pts fts dp df i n acc = Except.ok acc2 →
      acc2.pme = acc.pme + (n : ℚ) * dp ∧ acc2.fme = acc.fme + (n : ℚ) * df := by
  intro n
  induction n with
  | zero =>
    intro i acc acc2 h
    simp only [runTrials, Except.ok.injEq] at h
    subst h
    simp
  | succ m ih =>
    intro i acc acc2 h
    simp only [runTrials] at h
    rcases hT : trialStep okF okP (pts i) (fts i) dp df acc with e | a2
    · rw [hT] at h; cases h
    · rw [hT] at h
      obtain ⟨h1, h2⟩ := ih (i + 1) a2 acc2 h
      have hA : a2.pme = acc.pme + dp ∧ a2.fme = acc.fme + df := by
        unfold trialStep at hT
        by_cases hF : okF = true
        · by_cases hP : okP = true
          · simp only [hF, hP, Bool.not_true, Bool.false_eq_true, if_false,
              Except.ok.injEq] at hT
            subst hT
            simp
          · simp only [hF, eq_self_iff_true, Bool.not_true, Bool.not_eq_true] at hT
            rw [Bool.not_eq_true] at hP
            simp [hP] at hT
        · rw [Bool.not_eq_true] at hF
          simp [hF] at hT
      rw [h1, hA.1, h2, hA.2]
      constructor <;> (push_cast; ring)

/-- If a finiteness check fails, the first trial already returns a
diagnostic: with a positive trial count the loop result is an error. -/
theorem runTrials_error_of_nonfinite (okF okP : Bool) (pts fts : Nat → ℚ) (dp df : ℚ)
    (i n : Nat) (acc : Accum) (h : okF = false ∨ okP = false) :
    ∃ e, runTrials okF okP pts fts dp df i (n + 1) acc = Except.error e := by
  rcases h with h | h
  · subst h
    exact ⟨DiagKind.floatNonFinite, by simp [runTrials, trialStep]⟩
  · subst h
    cases okF with
    | false => exact ⟨DiagKind.floatNonFinite, by simp [runTrials, trialStep]⟩
    | true => exact ⟨DiagKind.positInputInvalid, by simp [runTrials, trialStep]⟩

/-- Master inversion for a `benchmark` call that printed results: the
repetition count was positive, the printed dimensions are the inputs, and
each printed mean error is the per-trial error times the trial count,
divided by the repetition count. -/
theorem benchmark_results_inv (ar : Arith) (r c : Nat) (reps : Int) (numa numb : ℚ)
    (pts fts : Nat → ℚ) (pInit fInit : ℚ) (r2 c2 : Nat) (pt ft pme fme : ℚ)
    (h : benchmark ar r c reps numa numb pts fts pInit fInit
        = BenchOutcome.results r2 c2 pt ft pme fme) :
    0 < reps ∧ r2 = r ∧ c2 = c ∧
      pme = ((reps.toNat : ℚ) * positTrialErr ar (benchSetup ar r c numa numb)) / (reps : ℚ) ∧
      fme = ((reps.toNat : ℚ) * floatTrialErr ar (benchSetup ar r c numa numb)) / (reps : ℚ) := by
  by_cases hr : reps ≤ 0
  · rw [benchmark, if_pos hr] at h
    cases h
  · rw [benchmark, if_neg hr] at h
    obtain ⟨h1, h2, acc, hAcc, hpt, hft, hpme, hfme⟩ :=
      finishOutcome_results_inv _ _ _ _ _ _ _ _ _ _ h
    obtain ⟨hp, hf⟩ := runTrials_ok_inv _ _ _ _ _ _ _ _ _ _ hAcc
    refine ⟨by omega, h1, h2, ?_, ?_⟩
    · rw [hpme, hp]; simp
    · rw [hfme, hf]; simp

/-- Unfolding of one extra column in the inner copy loop. -/
theorem copyRow_succ (f : Nat → Nat → ℚ) (row n : Nat) (st : Store) :
    copyRow f row (n + 1) st = Store.write (copyRow f row n st) row n (f row n) := by
  unfold copyRow
  rw [List.range_succ, List.foldl_append]
  rfl

/-- Write histories after the inner loop over one row: cells of that row
with column below the bound get exactly one extra write, every other cell
is untouched. -/
theorem copyRow_apply (f : Nat → Nat → ℚ) (row : Nat) :
    ∀ (n : Nat) (st : Store) (i j : Nat),
      copyRow f row n st i j = if i = row ∧ j < n then st i j ++ [f i j] else st i j := by
  intro n
  induction n with
  | zero => intro st i j; simp [copyRow]
  | succ m ih =>
    intro st i j
    rw [copyRow_succ]
    unfold Store.write
    rw [ih]
    by_cases h1 : i = row
    · subst h1
      by_cases h2 : j = m
      · subst h2
        simp [Nat.lt_irrefl, Nat.lt_succ_self]
      · by_cases h3 : j < m
        · simp [h2, h3, Nat.lt_succ_of_lt h3]
        · have h4 : ¬ j < m + 1 := by omega
          simp [h2, h3, h4]
    · simp [h1]

/-- Unfolding of one extra row in the outer copy loop. -/
theorem copyLoop_succ (f : Nat → Nat → ℚ) (m cols : Nat) :
    copyLoop f (m + 1) cols = copyRow f m cols (copyLoop f m cols) := by
  unfold copyLoop
  rw [List.range_succ, List.foldl_append]
  rfl

/-- Write histories after the full copy loop: every cell inside the loop
bounds holds exactly one write carrying the converted value, and no cell
outside the bounds was ever written. -/
theorem copyLoop_apply (f : Nat → Nat → ℚ) (rows cols : Nat) (i j : Nat) :
    copyLoop f rows cols i j = if i < rows ∧ j < cols then [f i j] else [] := by
  induction rows with
  | zero => simp [copyLoop, Store.empty]
  | succ m ih =>
    rw [copyLoop_succ, copyRow_apply, ih]
    by_cases h1 : i = m
    · subst h1
      by_cases h2 : j < cols
      · simp [h2, Nat.lt_irrefl, Nat.lt_succ_self]
      · simp [h2]
    · by_cases h3 : i < m
      · have h4 : i < m + 1 := by omega
        simp [h1, h3, h4]
      · have h4 : ¬ i < m + 1 := by omega
        simp [h1, h3, h4]

/-- C1: for every positive `rows` and `cols` and scalars `a`, `b`, the
double reference product `ref = da * db` that `benchmark` computes from
the two constant-filled `rows × cols` matrices has every element equal to
`a * b * cols` exactly, in exact arithmetic. -/
theorem c1_const_product_every_element (ar : Arith) (r c : Nat) (numa numb : ℚ)
    (i j : Nat) (hi : i < r) (hj : j < c) :
    (refProd ar (benchSetup ar r c numa numb)).entry i j = numa * numb * (c : ℚ) := by
  have h : (refProd ar (benchSetup ar r c numa numb)).entry i j
      = dotProd (· + ·) (· * ·) (0 : ℚ) c (fun _ => numa) (fun _ => numb) := rfl
  rw [h, dotProd_const]
  ring

/-- Witness for C1 at `r = c = 2`, `a = 3`, `b = 5`, element `(1, 1)`:
the reference product element is `3 * 5 * 2`. -/
theorem c1_const_product_every_element_witness :
    (refProd arQ (benchSetup arQ 2 2 3 5)).entry 1 1 = 3 * 5 * ((2 : Nat) : ℚ) :=
  c1_const_product_every_element arQ 2 2 3 5 1 1 (by decide) (by decide)

/-- C3: `benchmark` aborts through `assert(repetitions > 0)` exactly when
the repetition count is not positive; under the precondition
`repetitions > 0` the assertion-failure branch is unreachable. -/
theorem c3_assert_repetitions_positive (ar : Arith) (r c : Nat) (reps : Int)
    (numa numb : ℚ) (pts fts : Nat → ℚ) (pInit fInit : ℚ) :
    benchmark ar r c reps numa numb pts fts pInit fInit = BenchOutcome.assertFail ↔
      reps ≤ 0 := by
  by_cases hr : reps ≤ 0
  · simp [benchmark, hr]
  · rw [benchmark, if_neg hr]
    constructor
    · intro h
      exact absurd h (finishOutcome_ne_assertFail _ _ _ _)
    · intro h
      exact absurd h hr

/-- C5 (code bug): the timing accumulators `pelapsed` and `felapsed` are
default-constructed `std::chrono::duration<double, micro>` values, whose
defaulted constructor leaves the representation uninitialized, so they do
not start at zero.  Evaluating the embedding at repetitions = 1 with
measured durations 5 and 7 and indeterminate initial values 1 and 1: the
reported means are 6 and 8, not the single measured durations. -/
theorem c5_uninitialized_duration_accumulators :
    benchmark arQ 1 1 1 1 2 (fun _ => 5) (fun _ => 7) 1 1
        = BenchOutcome.results 1 1 6 8 0 0 ∧
      (6 : ℚ) ≠ 5 ∧ (8 : ℚ) ≠ 7 := by
  refine ⟨?_, by norm_num, by norm_num⟩
  simp [benchmark, benchSetup, positProd, floatProd, refProd, pToD, positTrialErr,
    floatTrialErr, matMul, matMap, matSub, matAdd, dotProd, Mat.const, Mat.mean,
    Mat.sumEntries, Mat.allFinite, runTrials, trialStep, finishOutcome, arQ,
    List.range_succ]
  norm_num

/-- C6: the harness error formula applied to a matrix against itself,
`(ref - ref).cwiseAbs().mean()`, is exactly zero for every matrix. -/
theorem c6_self_error_zero (M : Mat ℚ) :
    (matMap abs (matSub (· - ·) M M)).mean = 0 := by
  have hs : (matMap abs (matSub (· - ·) M M)).sumEntries = 0 := by
    unfold Mat.sumEntries
    refine List.sum_eq_zero ?_
    intro x hx
    rcases List.mem_map.mp hx with ⟨i, hi, rfl⟩
    refine List.sum_eq_zero ?_
    intro y hy
    rcases List.mem_map.mp hy with ⟨j, hj, rfl⟩
    simp [matMap, matSub]
  rw [Mat.mean, hs, zero_div]

/-- C7: at the start of a `benchmark` call all six operand matrices are
allocated with identical dimensions `r × c`, and every in-range element of
the A-side matrices equals `valueA` cast to that precision while every
in-range element of the B-side matrices equals `valueB` cast to that
precision. -/
theorem c7_operands_dims_and_uniform_fill (ar : Arith) (r c : Nat) (numa numb : ℚ)
    (i j : Nat) :
    (benchSetup ar r c numa numb).pa.rows = r ∧ (benchSetup ar r c numa numb).pa.cols = c ∧
    (benchSetup ar r c numa numb).pb.rows = r ∧ (benchSetup ar r c numa numb).pb.cols = c ∧
    (benchSetup ar r c numa numb).fa.rows = r ∧ (benchSetup ar r c numa numb).fa.cols = c ∧
    (benchSetup ar r c numa numb).fb.rows = r ∧ (benchSetup ar r c numa numb).fb.cols = c ∧
    (benchSetup ar r c numa numb).da.rows = r ∧ (benchSetup ar r c numa numb).da.cols = c ∧
    (benchSetup ar r c numa numb).db.rows = r ∧ (benchSetup ar r c numa numb).db.cols = c ∧
    (i < r → j < c →
      (benchSetup ar r c numa numb).pa.entry i j = ar.pOfQ numa ∧
      (benchSetup ar r c numa numb).pb.entry i j = ar.pOfQ numb ∧
      (benchSetup ar r c numa numb).fa.entry i j = ar.fOfQ numa ∧
      (benchSetup ar r c numa numb).fb.entry i j = ar.fOfQ numb ∧
      (benchSetup ar r c numa numb).da.entry i j = numa ∧
      (benchSetup ar r c numa numb).db.entry i j = numb) :=
  ⟨rfl, rfl, rfl, rfl, rfl, rfl, rfl, rfl, rfl, rfl, rfl, rfl,
    fun _ _ => ⟨rfl, rfl, rfl, rfl, rfl, rfl⟩⟩

/-- Witness for C7 at `r = 2`, `c = 3`, `valueA = 5`, `valueB = 7`,
element `(1, 2)`. -/
theorem c7_operands_dims_and_uniform_fill_witness :
    (benchSetup arQ 2 3 5 7).pa.rows = 2 ∧ (benchSetup arQ 2 3 5 7).pa.cols = 3 ∧
    (benchSetup arQ 2 3 5 7).pb.rows = 2 ∧ (benchSetup arQ 2 3 5 7).pb.cols = 3 ∧
    (benchSetup arQ 2 3 5 7).fa.rows = 2 ∧ (benchSetup arQ 2 3 5 7).fa.cols = 3 ∧
    (benchSetup arQ 2 3 5 7).fb.rows = 2 ∧ (benchSetup arQ 2 3 5 7).fb.cols = 3 ∧
    (benchSetup arQ 2 3 5 7).da.rows = 2 ∧ (benchSetup arQ 2 3 5 7).da.cols = 3 ∧
    (benchSetup arQ 2 3 5 7).db.rows = 2 ∧ (benchSetup arQ 2 3 5 7).db.cols = 3 ∧
    (1 < 2 → 2 < 3 →
      (benchSetup arQ 2 3 5 7).pa.entry 1 2 = arQ.pOfQ 5 ∧
      (benchSetup arQ 2 3 5 7).pb.entry 1 2 = arQ.pOfQ 7 ∧
      (benchSetup arQ 2 3 5 7).fa.entry 1 2 = arQ.fOfQ 5 ∧
      (benchSetup arQ 2 3 5 7).fb.entry 1 2 = arQ.fOfQ 7 ∧
      (benchSetup arQ 2 3 5 7).da.entry 1 2 = 5 ∧
      (benchSetup arQ 2 3 5 7).db.entry 1 2 = 7) :=
  c7_operands_dims_and_uniform_fill arQ 2 3 5 7 1 2

/-- C10: the posit product has exactly `r` rows and `c` columns, the
element-wise posit-to-double conversion loop writes every in-bounds cell
of `p_to_d` exactly once (its write history is the one-element list
holding the converted value) and never writes out of bounds (every other
cell has an empty history), and the error computation then reads exactly
those initialized values. -/
theorem c10_conversion_writes_once_in_bounds (ar : Arith) (r c : Nat) (numa numb : ℚ)
    (i j : Nat) :
    (positProd ar (benchSetup ar r c numa numb)).rows = r ∧
    (positProd ar (benchSetup ar r c numa numb)).cols = c ∧
    copyLoop
        (fun row col => ar.pToQ ((positProd ar (benchSetup ar r c numa numb)).entry row col))
        (positProd ar (benchSetup ar r c numa numb)).rows
        (positProd ar (benchSetup ar r c numa numb)).cols i j
      = (if i < r ∧ j < c
          then [ar.pToQ ((positProd ar (benchSetup ar r c numa numb)).entry i j)]
          else []) ∧
    (i < r → j < c →
      (pToD ar (benchSetup ar r c numa numb)).entry i j
        = ar.pToQ ((positProd ar (benchSetup ar r c numa numb)).entry i j)) := by
  refine ⟨rfl, rfl, ?_, fun _ _ => rfl⟩
  rw [copyLoop_apply]
  rfl

/-- Witness for C10 at `r = c = 2`, fill values `1` and `2`, cell
`(0, 1)`. -/
theorem c10_conversion_writes_once_in_bounds_witness :
    (positProd arQ (benchSetup arQ 2 2 1 2)).rows = 2 ∧
    (positProd arQ (benchSetup arQ 2 2 1 2)).cols = 2 ∧
    copyLoop
        (fun row col => arQ.pToQ ((positProd arQ (benchSetup arQ 2 2 1 2)).entry row col))
        (positProd arQ (benchSetup arQ 2 2 1 2)).rows
        (positProd arQ (benchSetup arQ 2 2 1 2)).cols 0 1
      = (if 0 < 2 ∧ 1 < 2
          then [arQ.pToQ ((positProd arQ (benchSetup arQ 2 2 1 2)).entry 0 1)]
          else []) ∧
    (0 < 2 → 1 < 2 →
      (pToD arQ (benchSetup arQ 2 2 1 2)).entry 0 1
        = arQ.pToQ ((positProd arQ (benchSetup arQ 2 2 1 2)).entry 0 1)) :=
  c10_conversion_writes_once_in_bounds arQ 2 2 1 2 0 1

/-- C2: if the float product or either posit input matrix fails its
finiteness check, `benchmark` returns early in the first trial with a
diagnostic naming the dimensions `r` and `c`: no results block is printed
for that call, and the sweep of the caller still performs one outcome per
scheduled invocation. -/
theorem c2_nonfinite_diagnostic_early_return (ar : Arith) (r c : Nat) (reps : Int)
    (numa numb : ℚ) (pts fts : Nat → ℚ) (pInit fInit : ℚ)
    (hreps : 0 < reps)
    (hnf : (floatProd ar (benchSetup ar r c numa numb)).allFinite ar.fFin = false ∨
           (benchSetup ar r c numa numb).pa.allFinite ar.pFin = false ∨
           (benchSetup ar r c numa numb).pb.allFinite ar.pFin = false) :
    (∃ k, benchmark ar r c reps numa numb pts fts pInit fInit
        = BenchOutcome.diagnostic k r c) ∧
    (∀ r2 c2 pt ft pme fme, benchmark ar r c reps numa numb pts fts pInit fInit
        ≠ BenchOutcome.results r2 c2 pt ft pme fme) ∧
    (runSweep ar pts fts pInit fInit).length = mainCalls.length := by
  have hr : ¬ reps ≤ 0 := by omega
  obtain ⟨n, hn⟩ : ∃ n, reps.toNat = n + 1 := ⟨reps.toNat - 1, by omega⟩
  have hok : (floatProd ar (benchSetup ar r c numa numb)).allFinite ar.fFin = false ∨
      ((benchSetup ar r c numa numb).pa.allFinite ar.pFin &&
        (benchSetup ar r c numa numb).pb.allFinite ar.pFin) = false := by
    rcases hnf with h | h | h
    · exact Or.inl h
    · exact Or.inr (by simp [h])
    · exact Or.inr (by simp [h])
  obtain ⟨e, hE⟩ := runTrials_error_of_nonfinite _ _ pts fts
    (positTrialErr ar (benchSetup ar r c numa numb))
    (floatTrialErr ar (benchSetup ar r c numa numb)) 0 n ⟨pInit, fInit, 0, 0⟩ hok
  have hB : benchmark ar r c reps numa numb pts fts pInit fInit
      = BenchOutcome.diagnostic e r c := by
    simp only [benchmark]
    rw [if_neg hr, hn, hE]
    rfl
  refine ⟨⟨e, hB⟩, ?_, ?_⟩
  · intro r2 c2 pt ft pme fme hcon
    rw [hB] at hcon
    cases hcon
  · simp [runSweep]

/-- Witness for C2: in the overflow context where a float value of
magnitude at least 100 is non-finite, `benchmark(1, 1, 1, 20, 10)` hits
the float check (the product is 200) and returns a diagnostic. -/
theorem c2_nonfinite_diagnostic_early_return_witness :
    (∃ k, benchmark arOverflowF 1 1 1 20 10 (fun _ => 0) (fun _ => 0) 0 0
        = BenchOutcome.diagnostic k 1 1) ∧
    (∀ r2 c2 pt ft pme fme, benchmark arOverflowF 1 1 1 20 10 (fun _ => 0) (fun _ => 0) 0 0
        ≠ BenchOutcome.results r2 c2 pt ft pme fme) ∧
    (runSweep arOverflowF (fun _ => 0) (fun _ => 0) 0 0).length = mainCalls.length :=
  c2_nonfinite_diagnostic_early_return arOverflowF 1 1 1 20 10 (fun _ => 0) (fun _ => 0) 0 0
    (by decide)
    (Or.inl (by
      simp only [arOverflowF, arQ, floatProd, benchSetup, matMul, dotProd, Mat.const,
        Mat.allFinite, List.range_succ]
      norm_num))

/-- C4: when a `benchmark` call prints results, the printed posit mean
absolute error is the sum over the trials of the per-trial mean absolute
elementwise difference between the reference product and the converted
posit product, divided by the repetition count, and likewise for the float
mean absolute error. -/
theorem c4_printed_mean_errors (ar : Arith) (r c : Nat) (reps : Int) (numa numb : ℚ)
    (pts fts : Nat → ℚ) (pInit fInit : ℚ) (r2 c2 : Nat) (pt ft pme fme : ℚ)
    (h : benchmark ar r c reps numa numb pts fts pInit fInit
        = BenchOutcome.results r2 c2 pt ft pme fme) :
    pme = ((List.range reps.toNat).map
        (fun _ => positTrialErr ar (benchSetup ar r c numa numb))).sum / (reps : ℚ) ∧
    fme = ((List.range reps.toNat).map
        (fun _ => floatTrialErr ar (benchSetup ar r c numa numb))).sum / (reps : ℚ) := by
  obtain ⟨_, _, _, hpme, hfme⟩ :=
    benchmark_results_inv ar r c reps numa numb pts fts pInit fInit r2 c2 pt ft pme fme h
  have hsum : ∀ q : ℚ, ((List.range reps.toNat).map (fun _ => q)).sum
      = (reps.toNat : ℚ) * q := by
    intro q
    rw [List.map_const', List.sum_replicate, List.length_range, nsmul_eq_mul]
  rw [hsum, hsum, hpme, hfme]
  exact ⟨rfl, rfl⟩

/-- Witness for C4: the run `benchmark(1, 1, 2, 1, 2)` in the exact
context prints zero mean errors, matching the per-trial sum formula. -/
theorem c4_printed_mean_errors_witness :
    (0 : ℚ) = ((List.range (2 : Int).toNat).map
        (fun _ => positTrialErr arQ (benchSetup arQ 1 1 1 2))).sum / ((2 : Int) : ℚ) ∧
    (0 : ℚ) = ((List.range (2 : Int).toNat).map
        (fun _ => floatTrialErr arQ (benchSetup arQ 1 1 1 2))).sum / ((2 : Int) : ℚ) :=
  c4_printed_mean_errors arQ 1 1 2 1 2 (fun _ => 0) (fun _ => 0) 0 0 1 1 0 0 0 0
    (by simp [benchmark, benchSetup, positProd, floatProd, refProd, pToD, positTrialErr,
      floatTrialErr, matMul, matMap, matSub, matAdd, dotProd, Mat.const, Mat.mean,
      Mat.sumEntries, Mat.allFinite, runTrials, trialStep, finishOutcome, arQ,
      List.range_succ])

/-- C9: the printed mean absolute errors do not depend on the repetition
count: any completed run prints the same posit and float mean errors as
the corresponding run with repetitions = 1. -/
theorem c9_errors_independent_of_repetitions (ar : Arith) (r c : Nat) (reps : Int)
    (numa numb : ℚ) (pts fts : Nat → ℚ) (pInit fInit : ℚ)
    (r2 c2 r3 c3 : Nat) (pt ft pme fme pt1 ft1 pme1 fme1 : ℚ)
    (h : benchmark ar r c reps numa numb pts fts pInit fInit
        = BenchOutcome.results r2 c2 pt ft pme fme)
    (h1 : benchmark ar r c 1 numa numb pts fts pInit fInit
        = BenchOutcome.results r3 c3 pt1 ft1 pme1 fme1) :
    pme = pme1 ∧ fme = fme1 := by
  obtain ⟨hpos, _, _, hpme, hfme⟩ :=
    benchmark_results_inv ar r c reps numa numb pts fts pInit fInit r2 c2 pt ft pme fme h
  obtain ⟨_, _, _, hpme1, hfme1⟩ :=
    benchmark_results_inv ar r c 1 numa numb pts fts pInit fInit r3 c3 pt1 ft1 pme1 fme1 h1
  have hcast : ((reps.toNat : ℚ)) = ((reps : ℚ)) := by
    exact_mod_cast congrArg (fun z : ℤ => (z : ℚ)) (Int.toNat_of_nonneg (le_of_lt hpos))
  have hne : ((reps : ℚ)) ≠ 0 := by
    have h0 : (0 : ℚ) < (reps : ℚ) := by exact_mod_cast hpos
    exact ne_of_gt h0
  norm_num at hpme1 hfme1
  constructor
  · rw [hpme, hcast, mul_div_cancel_left₀ _ hne, hpme1]
  · rw [hfme, hcast, mul_div_cancel_left₀ _ hne, hfme1]

/-- Witness for C9: the runs with repetitions 2 and 1 of
`benchmark(1, 1, -, 1, 2)` in the exact context print equal (zero) mean
errors. -/
theorem c9_errors_independent_of_repetitions_witness :
    (0 : ℚ) = 0 ∧ (0 : ℚ) = 0 :=
  c9_errors_independent_of_repetitions arQ 1 1 2 1 2 (fun _ => 0) (fun _ => 0) 0 0
    1 1 1 1 0 0 0 0 0 0 0 0
    (by simp [benchmark, benchSetup, positProd, floatProd, refProd, pToD, positTrialErr,
      floatTrialErr, matMul, matMap, matSub, matAdd, dotProd, Mat.const, Mat.mean,
      Mat.sumEntries, Mat.allFinite, runTrials, trialStep, finishOutcome, arQ,
      List.range_succ])
    (by simp [benchmark, benchSetup, positProd, floatProd, refProd, pToD, positTrialErr,
      floatTrialErr, matMul, matMap, matSub, matAdd, dotProd, Mat.const, Mat.mean,
      Mat.sumEntries, Mat.allFinite, runTrials, trialStep, finishOutcome, arQ,
      List.range_succ])

/-- C8: the driver invokes `benchmark` exactly for the square sizes 10,
20, 30, 40, 50, each invocation with repetition count 5 (which is one of
the small fixed counts 2 or 5), and for each size with the fixed list of
value pairs covering near-unity, near-zero and large-magnitude regimes. -/
theorem c8_driver_invocations :
    sweepSizesFrom 10 = [10, 20, 30, 40, 50] ∧
    mainCalls = ([10, 20, 30, 40, 50] : List Nat).flatMap sweepBody ∧
    (∀ i : Nat, ∀ cl ∈ sweepBody i, cl.r = i ∧ cl.c = i ∧ cl.reps = 5 ∧
      (cl.reps = 2 ∨ cl.reps = 5)) ∧
    (∀ i : Nat, (sweepBody i).map (fun cl => (cl.numa, cl.numb))
        = [(1, 2), (100001 / 100000, 99999 / 100000), (1 / 100000, 2 / 100000),
           (10000, 10000)]) := by
  have hs : sweepSizesFrom 10 = [10, 20, 30, 40, 50] := by
    rw [sweepSizesFrom]; norm_num
    rw [sweepSizesFrom]; norm_num
    rw [sweepSizesFrom]; norm_num
    rw [sweepSizesFrom]; norm_num
    rw [sweepSizesFrom]; norm_num
    rw [sweepSizesFrom]; norm_num
  refine ⟨hs, by rw [mainCalls, hs], ?_, ?_⟩
  · intro i cl hcl
    fin_cases hcl <;> exact ⟨rfl, rfl, rfl, Or.inr rfl⟩
  · intro i
    rfl
